import Mathlib

/-!
# Verification of the BRM recurrence / key-date engine

This file embeds the date arithmetic and event-generation logic of the
repository (a contract-management app) in Lean and proves the spec's claims
about it.

The source implements its own timezone-less calendar arithmetic on top of the
JavaScript `Date` object, constructed only through `new Date(y, m, d)` and
mutated only through `setMonth` / `setDate`.  For such values the JS engine
normalizes an arbitrary (year, monthIndex, day) triple by standard Gregorian
rollover: the month index is folded into the year, and an out-of-range
day-of-month is carried into adjacent months day-by-day (Jan 31 + 1 month →
Feb 31 → Mar 2/3, never clamped).  Comparisons between two such values compare
their timestamps, i.e. their chronological order; `diffInDays` divides the
timestamp difference by 86 400 000 after truncating the time component.

We model this with a `Date` structure holding (year, month 1-12, day) and a
day-count function `toRD` (a rata-die style linear day number); normalization
is `mkDate`, and comparisons/differences go through `toRD`.  The time-of-day
component (the repository calls `new Date()` for "today" in a few places) is
dropped: every value is a calendar day, which is the regime the spec
describes ("calendar-only (no time-of-day) date type").
-/

/-- A calendar date: year, month (1-12 when normalized), day.  Mirrors the
JS `Date` values used by the source, which carry no time component of
interest. -/
structure Date where
  year : Int
  month : Int
  day : Int
deriving DecidableEq, Repr

/-- Gregorian leap-year rule (what JS `Date` implements internally). -/
def isLeap (y : Int) : Bool :=
  decide (y % 4 = 0 ∧ (y % 100 ≠ 0 ∨ y % 400 = 0))

/-- Number of days in month `m` of year `y` (for `m` in 1..12). -/
def daysInMonth (y m : Int) : Int :=
  if m = 2 then (if isLeap y then 29 else 28)
  else if m = 4 ∨ m = 6 ∨ m = 9 ∨ m = 11 then 30
  else 31

/-- Cumulative day count of the months strictly before `m` in a non-leap
year (for `m` in 1..12). -/
def monthOffset (m : Int) : Int :=
  if m ≤ 1 then 0
  else if m = 2 then 31
  else if m = 3 then 59
  else if m = 4 then 90
  else if m = 5 then 120
  else if m = 6 then 151
  else if m = 7 then 181
  else if m = 8 then 212
  else if m = 9 then 243
  else if m = 10 then 273
  else if m = 11 then 304
  else 334

/-- Cumulative day count of the months strictly before `m` in year `y`. -/
def daysBeforeMonth (y m : Int) : Int :=
  monthOffset m + (if 2 < m ∧ isLeap y then 1 else 0)

/-- Linear day number of a date (proleptic Gregorian; day 0 is 0001-01-00).
Differences of `toRD` values are exactly the JS timestamp differences divided
by 86 400 000, which is all the source ever uses timestamps for. -/
def toRD (dt : Date) : Int :=
  365 * (dt.year - 1) + (dt.year - 1) / 4 - (dt.year - 1) / 100 + (dt.year - 1) / 400
    + daysBeforeMonth dt.year dt.month + (dt.day - 1)

/-- One step of the day-of-month normalization the JS engine performs when a
`Date` is built from an out-of-range day: carry the excess into the previous
or next month.  `fuel` bounds the recursion; callers supply enough fuel for
any input (`|d| + 2` steps always suffice since each step moves the day by at
least 28). -/
def normDay : Nat → Int → Int → Int → Date
  | 0, y, m, d => ⟨y, m, d⟩
  | Nat.succ fuel, y, m, d =>
    if d < 1 then
      let y' := if m = 1 then y - 1 else y
      let m' := if m = 1 then 12 else m - 1
      normDay fuel y' m' (d + daysInMonth y' m')
    else if daysInMonth y m < d then
      let y' := if m = 12 then y + 1 else y
      let m' := if m = 12 then 1 else m + 1
      normDay fuel y' m' (d - daysInMonth y m)
    else ⟨y, m, d⟩

/-- `mkDate y m d` is the normalized date the JS engine produces for
`new Date(y, m - 1, d)`: the month is folded into the year first, then the
day-of-month is carried by Gregorian rollover. -/
def mkDate (y m d : Int) : Date :=
  let ym := 12 * y + (m - 1)
  normDay (d.natAbs + 2) (ym / 12) (ym % 12 + 1) d

/-- `d.setMonth(d.getMonth() + months)` from the source's `addMonths`: the day
of month is kept and JS rollover is applied ("If month rollover happened
(e.g., Jan 31 -> Mar 3), keep JS behavior"). -/
def addMonths (dt : Date) (months : Int) : Date :=
  mkDate dt.year (dt.month + months) dt.day

/-- `d.setDate(d.getDate() + days)` from the source's `addDays`. -/
def addDays (dt : Date) (days : Int) : Date :=
  mkDate dt.year dt.month (dt.day + days)

/-- The source's `diffInDays` / `daysBetween`: timestamp difference of the two
dates (at midnight) divided by the milliseconds in a day. -/
def diffInDays (a b : Date) : Int :=
  toRD a - toRD b

/-- Left-pad a numeral string to two characters, as `String(n).padStart(2,"0")`
does in the source's `toISO`. -/
def pad2 (n : Int) : String :=
  let s := toString n
  if s.length < 2 then "0" ++ s else s

/-- The source's `toISO`: `yyyy-mm-dd` with 2-padded month and day (the year
is printed as-is, like JS `getFullYear()`). -/
def toISO (dt : Date) : String :=
  toString dt.year ++ "-" ++ pad2 dt.month ++ "-" ++ pad2 dt.day

/-- The year/month/day fields of a well-formed `yyyy-mm-dd` string, i.e. the
input of the source's `parseISO` after `split("-").map(Number)`. -/
structure ISOTriple where
  y : Int
  m : Int
  d : Int
deriving DecidableEq, Repr

/-- The source's `parseISO`: `new Date(y, (m || 1) - 1, d || 1)` — a zero
month or day falls back to 1, then JS normalization applies. -/
def parseISO (t : ISOTriple) : Date :=
  mkDate t.y (if t.m = 0 then 1 else t.m) (if t.d = 0 then 1 else t.d)

-- Sanity checks of the date model against known calendar facts.
example : mkDate 2024 1 31 = ⟨2024, 1, 31⟩ := by decide
example : addMonths ⟨2024, 1, 31⟩ 1 = ⟨2024, 3, 2⟩ := by decide
example : addMonths ⟨2025, 1, 31⟩ 1 = ⟨2025, 3, 3⟩ := by decide
example : addDays ⟨2026, 1, 15⟩ (-30) = ⟨2025, 12, 16⟩ := by decide
example : addMonths ⟨2025, 1, 15⟩ 12 = ⟨2026, 1, 15⟩ := by decide
example : diffInDays ⟨2024, 3, 1⟩ ⟨2024, 2, 1⟩ = 29 := by decide
example : diffInDays ⟨2023, 3, 1⟩ ⟨2023, 2, 1⟩ = 28 := by decide
example : toISO ⟨2025, 1, 5⟩ = "2025-01-05" := by decide
example : parseISO ⟨2025, 1, 15⟩ = ⟨2025, 1, 15⟩ := by decide

/-!
## The calendar view's event generator (`generateEventsFromAgreement`)

From the calendar component: `type EventType = "notice" | "renewal" |
"termination"`, rows straight from the `agreements` table, and a pure
generator producing `CalendarEvent`s for one agreement over a window.
The two `while` loops share a single `guard` counter bounded by the `cap`
parameter (default 36); we embed them as fuel-based recursion where the fuel
is `cap - guard`.
-/

/-- `type EventType = "notice" | "renewal" | "termination"`. -/
inductive EventType where
  | notice
  | renewal
  | termination
deriving DecidableEq, Repr

/-- The fields of an `AgreementRow` that the recurrence engine reads
(nullable columns become `Option`; dates arrive as ISO strings, embedded here
as their parsed digit triples). -/
structure AgreementRow where
  id : String
  vendor : String
  title : String
  end_on : Option ISOTriple
  auto_renews : Option Bool
  notice_days : Option Int
  renewal_frequency_months : Option Int
deriving DecidableEq, Repr

/-- A `CalendarEvent` as produced by the calendar view's generator.  The
source stores `date` as a `yyyy-mm-dd` string; we keep the calendar day it
denotes (its `toISO` image is the source's string). -/
structure CalendarEvent where
  id : String
  title : String
  vendor : String
  date : Date
  type : EventType
  description : String
  agreementId : String
deriving DecidableEq, Repr

/-- `!!a.auto_renews`: a nullable boolean column is truthy iff it is `true`. -/
def autoOf (a : AgreementRow) : Bool :=
  a.auto_renews = some true

/-- `a.renewal_frequency_months && a.renewal_frequency_months > 0 ? a.renewal_frequency_months : 12`
(identical in every call site): a missing or non-positive cadence is
normalized to 12. -/
def effectiveFreq (rfm : Option Int) : Int :=
  match rfm with
  | some f => if 0 < f then f else 12
  | none => 12

/-- `a.notice_days ?? 0`. -/
def noticeDaysOf (a : AgreementRow) : Int :=
  a.notice_days.getD 0

/-- The generator's first loop: `while (renewal < windowStart && guard < cap)
{ renewal = addMonths(renewal, freq); guard++; }` — fast-forward the renewal
cursor to the window start.  Returns the cursor and the remaining guard
budget. -/
def ffwd : Nat → Date → Date → Int → Date × Nat
  | 0, renewal, _, _ => (renewal, 0)
  | Nat.succ fuel, renewal, windowStart, freq =>
    if toRD renewal < toRD windowStart then
      ffwd fuel (addMonths renewal freq) windowStart freq
    else
      (renewal, Nat.succ fuel)

/-- The notice-deadline event pushed for a renewal at `renewal` (its id and
description embed both the notice and the renewal ISO dates).  Like the
source, which destructures `vendor`/`title`/`noticeDays` from the row before
the loops, the constructors take the row fields they use. -/
def mkNoticeEvent (aId vendor : String) (noticeDays : Int)
    (noticeDate renewal : Date) : CalendarEvent :=
  { id := aId ++ "-notice-" ++ toISO noticeDate ++ "-" ++ toISO renewal
    title := "Notice Deadline"
    vendor := vendor
    date := noticeDate
    type := EventType.notice
    description := toString noticeDays ++ " day notice before " ++ toISO renewal
    agreementId := aId }

/-- The renewal event pushed for a renewal date. -/
def mkRenewalEvent (aId vendor title : String) (renewal : Date) : CalendarEvent :=
  { id := aId ++ "-renewal-" ++ toISO renewal
    title := "Contract Renewal"
    vendor := vendor
    date := renewal
    type := EventType.renewal
    description := title ++ " auto-renews"
    agreementId := aId }

/-- The generator's second loop: `while (renewal <= windowEnd && guard < cap)`
— push a renewal event, plus a notice-deadline event when `noticeDays > 0`
and the notice date falls inside the window, then advance the cursor. -/
def emitLoop (aId vendor title : String) (noticeDays : Int)
    (windowStart windowEnd : Date) (freq : Int) :
    Nat → Date → List CalendarEvent
  | 0, _ => []
  | Nat.succ fuel, renewal =>
    if toRD renewal ≤ toRD windowEnd then
      mkRenewalEvent aId vendor title renewal ::
        ((if 0 < noticeDays then
            let noticeDate := addDays renewal (-noticeDays)
            if toRD windowStart ≤ toRD noticeDate ∧ toRD noticeDate ≤ toRD windowEnd then
              [mkNoticeEvent aId vendor noticeDays noticeDate renewal]
            else []
          else [])
          ++ emitLoop aId vendor title noticeDays windowStart windowEnd freq fuel
              (addMonths renewal freq))
    else []

/-- `generateEventsFromAgreement(a, windowStart, windowEnd, cap = 36)` from
the calendar component:
1. no `end_on` → no events;
2. a Term End event at `end_on` when it lies inside the window;
3. nothing more unless `auto_renews` is truthy;
4. fast-forward the renewal cursor from `end_on` to the window start, then
   emit renewals (and in-window notice deadlines) up to the window end,
   both loops sharing the `cap` guard counter. -/
def generateEventsFromAgreement (a : AgreementRow) (windowStart windowEnd : Date)
    (cap : Nat) : List CalendarEvent :=
  match a.end_on with
  | none => []
  | some endISO =>
    let endDate := parseISO endISO
    let termEvts : List CalendarEvent :=
      if toRD windowStart ≤ toRD endDate ∧ toRD endDate ≤ toRD windowEnd then
        [{ id := a.id ++ "-term-" ++ toISO endDate
           title := "Term End"
           vendor := a.vendor
           date := endDate
           type := EventType.termination
           description := "End of current term"
           agreementId := a.id }]
      else []
    if autoOf a then
      let freq := effectiveFreq a.renewal_frequency_months
      let (renewal, fuel) := ffwd cap endDate windowStart freq
      termEvts ++ emitLoop a.id a.vendor a.title (noticeDaysOf a)
        windowStart windowEnd freq fuel renewal
    else
      termEvts

/-- The calendar component's aggregation: generate per agreement in row
order, concatenate, and stable-sort by date only
(`all.sort((a, b) => (a.date < b.date ? -1 : a.date > b.date ? 1 : 0))`;
JS `Array.prototype.sort` is stable). -/
def calendarAll (rows : List AgreementRow) (windowStart windowEnd : Date)
    (cap : Nat) : List CalendarEvent :=
  ((rows.map (fun a => generateEventsFromAgreement a windowStart windowEnd cap)).flatten).mergeSort
    (fun e1 e2 => toRD e1.date ≤ toRD e2.date)

-- The spec's worked scenario (§8), evaluated on the embedding.
def scenarioAgreement : AgreementRow :=
  { id := "a1", vendor := "Acme", title := "SaaS"
    end_on := some ⟨2025, 1, 15⟩
    auto_renews := some true
    notice_days := some 30
    renewal_frequency_months := some 12 }

example :
    (generateEventsFromAgreement scenarioAgreement (mkDate 2025 1 1) (mkDate 2026 2 1) 36).map
        (fun e => (e.type, e.date)) =
      [(EventType.termination, ⟨2025, 1, 15⟩), (EventType.renewal, ⟨2025, 1, 15⟩),
       (EventType.renewal, ⟨2026, 1, 15⟩), (EventType.notice, ⟨2025, 12, 16⟩)] := by
  decide

/-!
## The PATCH route's `buildKeyDates`

`src/app/api/agreements/[id]/route.ts` re-derives all key dates on every
edit with a single `while` loop (`guard < 120`) over the window
`[new Date(), addMonths(new Date(), monthsAhead)]`, skipping cursor positions
before the window start instead of fast-forwarding first.  The wall-clock
`new Date()` is threaded through here as the explicit calendar day `today`.
-/

/-- A row of the persisted `agreement_key_dates` projection:
`{ agreement_id, event_kind, occurs_on }` (the `occurs_on` ISO string is kept
as the calendar day it denotes). -/
structure KeyDateRow where
  agreement_id : String
  event_kind : EventType
  occurs_on : Date
deriving DecidableEq, Repr

/-- The single renewal loop of `buildKeyDates`:
`while (renewal <= windowEnd && guard < 120) { if (renewal >= windowStart)
{ push renewal; maybe push notice }; renewal = addMonths(renewal, freq);
guard++; }`. -/
def bkdLoop (aId : String) (noticeDays : Int) (windowStart windowEnd : Date)
    (freq : Int) : Nat → Date → List KeyDateRow
  | 0, _ => []
  | Nat.succ fuel, renewal =>
    if toRD renewal ≤ toRD windowEnd then
      (if toRD windowStart ≤ toRD renewal then
        { agreement_id := aId, event_kind := EventType.renewal,
          occurs_on := renewal } ::
          (if 0 < noticeDays then
            let nd := addDays renewal (-noticeDays)
            if toRD windowStart ≤ toRD nd ∧ toRD nd ≤ toRD windowEnd then
              [{ agreement_id := aId, event_kind := EventType.notice,
                 occurs_on := nd }]
            else []
          else [])
      else [])
      ++ bkdLoop aId noticeDays windowStart windowEnd freq fuel (addMonths renewal freq)
    else []

/-- `buildKeyDates(a, monthsAhead = 60)`: the Term End row when `end_on` lies
in `[today, today + monthsAhead months]`, then (for auto-renewing rows) the
renewal/notice rows from the 120-capped loop anchored at `end_on`. -/
def buildKeyDates (a : AgreementRow) (today : Date) (monthsAhead : Int) :
    List KeyDateRow :=
  match a.end_on with
  | none => []
  | some endISO =>
    let endDate := parseISO endISO
    let windowStart := today
    let windowEnd := addMonths today monthsAhead
    let termRows : List KeyDateRow :=
      if toRD windowStart ≤ toRD endDate ∧ toRD endDate ≤ toRD windowEnd then
        [{ agreement_id := a.id, event_kind := EventType.termination,
           occurs_on := endDate }]
      else []
    if autoOf a then
      let freq := effectiveFreq a.renewal_frequency_months
      termRows ++ bkdLoop a.id (noticeDaysOf a) windowStart windowEnd freq 120 endDate
    else
      termRows

/-!
## The ICS feed export

The calendar-feed route collects one year of events (`horizon = today + 12
months`, renewal loop `guard < 24`) and serializes them as `VEVENT` blocks.
The source's event record `E` identifies the event kind only through its
`uid` prefix (`-renewal-` / `-notice-` / `-term-`); the embedding carries
that kind explicitly alongside the uid. -/
structure IcsEvent where
  uid : String
  summary : String
  dt : Date
  desc : String
  kind : EventType
deriving DecidableEq, Repr

/-- The renewal `VEVENT` data pushed by the ICS loop. -/
def mkIcsRenewalEvent (aId vendor title : String) (next : Date) : IcsEvent :=
  { uid := aId ++ "-renewal-" ++ toISO next
    summary := "Renewal — " ++ vendor ++ " (" ++ title ++ ")"
    dt := next, desc := "Auto-renewal", kind := EventType.renewal }

/-- The notice-deadline `VEVENT` data pushed by the ICS loop. -/
def mkIcsNoticeEvent (aId vendor title : String) (noticeDays : Int)
    (n : Date) : IcsEvent :=
  { uid := aId ++ "-notice-" ++ toISO n
    summary := "Notice deadline — " ++ vendor ++ " (" ++ title ++ ")"
    dt := n, desc := toString noticeDays ++ "-day notice"
    kind := EventType.notice }

/-- The ICS renewal loop: `while (next <= horizon && guard < 24) { if (next
>= today) { push renewal; if (notice > 0 && n >= today) push notice }; next =
addMonths(next, freq); guard++; }`.  Note the notice date's upper bound is
never checked here (it is below `next ≤ horizon` anyway). -/
def icsLoop (aId vendor title : String) (noticeDays : Int)
    (today horizon : Date) (freq : Int) : Nat → Date → List IcsEvent
  | 0, _ => []
  | Nat.succ fuel, next =>
    if toRD next ≤ toRD horizon then
      (if toRD today ≤ toRD next then
        mkIcsRenewalEvent aId vendor title next ::
          (if 0 < noticeDays then
            let n := addDays next (-noticeDays)
            if toRD today ≤ toRD n then
              [mkIcsNoticeEvent aId vendor title noticeDays n]
            else []
          else [])
      else [])
      ++ icsLoop aId vendor title noticeDays today horizon freq fuel
          (addMonths next freq)
    else []

/-- The ICS export's per-agreement event enumeration: for auto-renewing
agreements only the renewal loop runs (no Term End block at all); a Term End
`VEVENT` is produced only in the `else` branch, when the agreement does not
auto-renew and `end_on` lies in `[today, horizon]`. -/
def icsEventsFor (a : AgreementRow) (today : Date) : List IcsEvent :=
  match a.end_on with
  | none => []
  | some endISO =>
    let endDate := parseISO endISO
    let horizon := addMonths today 12
    if autoOf a then
      let freq := effectiveFreq a.renewal_frequency_months
      icsLoop a.id a.vendor a.title (noticeDaysOf a) today horizon freq 24 endDate
    else if toRD today ≤ toRD endDate ∧ toRD endDate ≤ toRD horizon then
      [{ uid := a.id ++ "-term-" ++ toISO endDate
         summary := "Term end — " ++ a.vendor ++ " (" ++ a.title ++ ")"
         dt := endDate, desc := "", kind := EventType.termination }]
    else []

/-!
## The cron reminder route (`send-reminders`)

`nextEvents(a, today)` computes the next Term End / Renewal / Notice
Deadline for one agreement (fast-forwarding the renewal cursor with
`guard < 120`), and the handler keeps only events whose day distance from the
run date is exactly 30, 60 or 90. -/
inductive ReminderKind where
  | TERM_END
  | RENEWAL
  | NOTICE_DEADLINE
deriving DecidableEq, Repr

/-- An entry of the `events` array built by `nextEvents`. -/
structure ReminderEvent where
  kind : ReminderKind
  date : Date
  label : String
deriving DecidableEq, Repr

/-- The cron route's `nextEvents(a, today)`:
a Term End entry when `end_on >= today`; for truthy `auto_renews`, the first
renewal at or after `today` (cursor fast-forwarded from `end_on`, `guard <
120`) plus its notice deadline when `notice_days > 0` and the notice date has
not passed; finally everything strictly before `today` is filtered out. -/
def nextEvents (a : AgreementRow) (today : Date) : List ReminderEvent :=
  match a.end_on with
  | none => []
  | some endISO =>
    let endDate := parseISO endISO
    let base : List ReminderEvent :=
      (if toRD today ≤ toRD endDate then
        [{ kind := ReminderKind.TERM_END, date := endDate, label := "Term End" }]
      else [])
      ++ (if autoOf a then
        let freq := effectiveFreq a.renewal_frequency_months
        let (renewal, _) := ffwd 120 endDate today freq
        { kind := ReminderKind.RENEWAL, date := renewal, label := "Auto-Renewal" } ::
          (match a.notice_days with
           | some n =>
             if 0 < n then
               let nd := addDays renewal (-n)
               if toRD today ≤ toRD nd then
                 [{ kind := ReminderKind.NOTICE_DEADLINE, date := nd,
                    label := "Notice Deadline" }]
               else []
             else []
           | none => [])
      else [])
    base.filter (fun e => toRD today ≤ toRD e.date)

/-- An entry of the reminder digest built by the cron handler. -/
structure ReminderItem where
  vendor : String
  title : String
  kind : String
  -- the source names this field `on` (a reserved token here)
  onDate : String
  inDays : Int
deriving DecidableEq, Repr

/-- The cron handler's per-agreement selection: for each event of
`nextEvents`, compute `d = diffInDays(ev.date, today)` and keep the event iff
`d === 30 || d === 60 || d === 90`. -/
def reminderItems (a : AgreementRow) (today : Date) : List ReminderItem :=
  (nextEvents a today).filterMap (fun ev =>
    let d := diffInDays ev.date today
    if d = 30 ∨ d = 60 ∨ d = 90 then
      some { vendor := a.vendor, title := a.title, kind := ev.label,
             onDate := toISO ev.date, inDays := d }
    else none)

/-!
## Arithmetic facts about the date model

The loop proofs need one key analytic fact: advancing a (month-normalized)
date by a positive number of months strictly increases its day number.  We
derive it from the month-table arithmetic of `toRD`.
-/

/-- A date whose month field is in range 1..12 (every date built by
`mkDate`, hence every date the source ever constructs, satisfies this). -/
def MonthOk (dt : Date) : Prop :=
  1 ≤ dt.month ∧ dt.month ≤ 12

instance (dt : Date) : Decidable (MonthOk dt) := by
  unfold MonthOk; infer_instance

theorem daysInMonth_ge (y m : Int) : 28 ≤ daysInMonth y m := by
  unfold daysInMonth
  repeat' split
  all_goals omega

theorem daysInMonth_le (y m : Int) : daysInMonth y m ≤ 31 := by
  unfold daysInMonth
  repeat' split
  all_goals omega

theorem toRD_day (y m d : Int) : toRD ⟨y, m, d⟩ = toRD ⟨y, m, 1⟩ + (d - 1) := by
  simp [toRD]
  try ring

/-- The first day of the month after `(y, m)` is `daysInMonth y m` days after
the first day of `(y, m)`. -/
theorem toRD_next_first (y m : Int) (h1 : 1 ≤ m) (h2 : m ≤ 12) :
    toRD ⟨if m = 12 then y + 1 else y, if m = 12 then 1 else m + 1, 1⟩
      = toRD ⟨y, m, 1⟩ + daysInMonth y m := by
  by_cases hm : m = 12
  · subst hm
    by_cases hp : (y % 4 = 0 ∧ (y % 100 ≠ 0 ∨ y % 400 = 0)) <;>
      simp [toRD, daysBeforeMonth, monthOffset, daysInMonth, isLeap, hp] <;>
      omega
  · have h2' : m ≤ 11 := by omega
    simp only [if_neg hm]
    interval_cases m <;>
      (by_cases hL : isLeap y <;>
        simp [toRD, daysBeforeMonth, monthOffset, daysInMonth, hL] <;> omega)

/-- Day-of-month normalization never changes the day number of the
(possibly denormalized) triple, whatever the fuel. -/
theorem normDay_toRD (fuel : Nat) :
    ∀ y m d : Int, 1 ≤ m → m ≤ 12 →
      toRD (normDay fuel y m d) = toRD ⟨y, m, d⟩ := by
  induction fuel with
  | zero => intro y m d _ _; rfl
  | succ fuel ih =>
    intro y m d h1 h2
    rw [normDay]
    by_cases hlt : d < 1
    · rw [if_pos hlt]
      set y' := if m = 1 then y - 1 else y with hy'
      set m' := if m = 1 then 12 else m - 1 with hm'
      have hm'1 : 1 ≤ m' := by rw [hm']; split <;> omega
      have hm'2 : m' ≤ 12 := by rw [hm']; split <;> omega
      rw [ih y' m' (d + daysInMonth y' m') hm'1 hm'2]
      have hnext : (if m' = 12 then y' + 1 else y') = y ∧
          (if m' = 12 then 1 else m' + 1) = m := by
        rw [hm', hy']
        by_cases hm1 : m = 1
        · simp [hm1]
        · simp only [if_neg hm1]
          constructor <;> split <;> omega
      have := toRD_next_first y' m' hm'1 hm'2
      rw [hnext.1, hnext.2] at this
      rw [toRD_day y' m' (d + daysInMonth y' m'), toRD_day y m d]
      omega
    · rw [if_neg hlt]
      by_cases hgt : daysInMonth y m < d
      · rw [if_pos hgt]
        set y' := if m = 12 then y + 1 else y with hy'
        set m' := if m = 12 then 1 else m + 1 with hm'
        have hm'1 : 1 ≤ m' := by rw [hm']; split <;> omega
        have hm'2 : m' ≤ 12 := by rw [hm']; split <;> omega
        rw [ih y' m' (d - daysInMonth y m) hm'1 hm'2]
        have := toRD_next_first y m h1 h2
        rw [← hy', ← hm'] at this
        rw [toRD_day y' m' (d - daysInMonth y m), toRD_day y m d]
        omega
      · rw [if_neg hgt]

/-- Day-of-month normalization keeps the month field in range. -/
theorem normDay_monthOk (fuel : Nat) :
    ∀ y m d : Int, 1 ≤ m → m ≤ 12 → MonthOk (normDay fuel y m d) := by
  induction fuel with
  | zero => intro y m d h1 h2; exact ⟨h1, h2⟩
  | succ fuel ih =>
    intro y m d h1 h2
    rw [normDay]
    by_cases hlt : d < 1
    · rw [if_pos hlt]
      apply ih
      · split <;> omega
      · split <;> omega
    · rw [if_neg hlt]
      by_cases hgt : daysInMonth y m < d
      · rw [if_pos hgt]
        apply ih
        · split <;> omega
        · split <;> omega
      · rw [if_neg hgt]; exact ⟨h1, h2⟩

/-- The day number of the first day of the month with linear month index `i`
(year `i / 12`, month `i % 12 + 1`). -/
def monthStartRD (i : Int) : Int :=
  toRD ⟨i / 12, i % 12 + 1, 1⟩

theorem monthStartRD_succ (i : Int) :
    monthStartRD (i + 1) = monthStartRD i + daysInMonth (i / 12) (i % 12 + 1) := by
  have h1 : (1 : Int) ≤ i % 12 + 1 := by omega
  have h2 : i % 12 + 1 ≤ 12 := by omega
  have := toRD_next_first (i / 12) (i % 12 + 1) h1 h2
  unfold monthStartRD
  rw [← this]
  by_cases hm : i % 12 + 1 = 12
  · rw [if_pos hm, if_pos hm]
    have ha : (i + 1) / 12 = i / 12 + 1 := by omega
    have hb : (i + 1) % 12 + 1 = 1 := by omega
    rw [ha, hb]
  · rw [if_neg hm, if_neg hm]
    have ha : (i + 1) / 12 = i / 12 := by omega
    have hb : (i + 1) % 12 + 1 = i % 12 + 1 + 1 := by omega
    rw [ha, hb]

theorem monthStartRD_add_le (k : Nat) :
    ∀ i : Int, monthStartRD i + 28 * k ≤ monthStartRD (i + k) := by
  induction k with
  | zero => intro i; simp
  | succ k ih =>
    intro i
    have h1 := ih i
    have h2 := monthStartRD_succ (i + k)
    have h3 := daysInMonth_ge ((i + k) / 12) ((i + k) % 12 + 1)
    have he : (i + (k + 1 : Nat) : Int) = (i + k) + 1 := by push_cast; ring
    rw [he, h2]
    push_cast
    push_cast at h1
    omega

/-- `mkDate` in terms of the month-index day number. -/
theorem mkDate_toRD (y m d : Int) :
    toRD (mkDate y m d) = monthStartRD (12 * y + (m - 1)) + (d - 1) := by
  unfold mkDate monthStartRD
  have h1 : (1 : Int) ≤ (12 * y + (m - 1)) % 12 + 1 := by omega
  have h2 : (12 * y + (m - 1)) % 12 + 1 ≤ 12 := by omega
  rw [normDay_toRD _ _ _ _ h1 h2, toRD_day]

theorem mkDate_monthOk (y m d : Int) : MonthOk (mkDate y m d) := by
  unfold mkDate
  apply normDay_monthOk <;> omega

theorem addMonths_monthOk (dt : Date) (n : Int) : MonthOk (addMonths dt n) :=
  mkDate_monthOk _ _ _

theorem addDays_monthOk (dt : Date) (n : Int) : MonthOk (addDays dt n) :=
  mkDate_monthOk _ _ _

theorem parseISO_monthOk (t : ISOTriple) : MonthOk (parseISO t) :=
  mkDate_monthOk _ _ _

/-- A month-normalized date's day number in month-index form. -/
theorem toRD_of_monthOk (dt : Date) (h : MonthOk dt) :
    toRD dt = monthStartRD (12 * dt.year + (dt.month - 1)) + (dt.day - 1) := by
  obtain ⟨h1, h2⟩ := h
  unfold monthStartRD
  have ha : (12 * dt.year + (dt.month - 1)) / 12 = dt.year := by omega
  have hb : (12 * dt.year + (dt.month - 1)) % 12 + 1 = dt.month := by omega
  rw [ha, hb, ← toRD_day]

/-- The key monotonicity fact: adding `n ≥ 1` months to a month-normalized
date strictly increases its day number.  (This is what makes the source's
renewal cursors advance.) -/
theorem toRD_lt_addMonths (dt : Date) (n : Int) (h : MonthOk dt) (hn : 1 ≤ n) :
    toRD dt < toRD (addMonths dt n) := by
  unfold addMonths
  rw [mkDate_toRD, toRD_of_monthOk dt h]
  have he : 12 * dt.year + (dt.month + n - 1)
      = (12 * dt.year + (dt.month - 1)) + n := by ring
  rw [he]
  have hk : n = (n.toNat : Int) := by omega
  have := monthStartRD_add_le n.toNat (12 * dt.year + (dt.month - 1))
  rw [← hk] at this
  omega

/-!
## Loop invariants
-/

theorem effectiveFreq_ge_one (rfm : Option Int) : 1 ≤ effectiveFreq rfm := by
  cases rfm with
  | none => decide
  | some f =>
    simp only [effectiveFreq]
    split <;> omega

theorem ffwd_monthOk : ∀ (fuel : Nat) (r ws : Date) (freq : Int),
    MonthOk r → MonthOk (ffwd fuel r ws freq).1 := by
  intro fuel
  induction fuel with
  | zero => intro r ws freq h; exact h
  | succ fuel ih =>
    intro r ws freq h
    rw [ffwd]
    split
    · exact ih _ _ _ (addMonths_monthOk r freq)
    · exact h

/-- When the fast-forward loop exits with guard budget left, the cursor has
reached the window start. -/
theorem ffwd_ge : ∀ (fuel : Nat) (r ws : Date) (freq : Int),
    (ffwd fuel r ws freq).2 ≠ 0 → toRD ws ≤ toRD (ffwd fuel r ws freq).1 := by
  intro fuel
  induction fuel with
  | zero => intro r ws freq h; exact absurd rfl h
  | succ fuel ih =>
    intro r ws freq h
    rw [ffwd] at h ⊢
    by_cases hc : toRD r < toRD ws
    · rw [if_pos hc] at h ⊢
      exact ih _ _ _ h
    · rw [if_neg hc] at h ⊢
      show toRD ws ≤ toRD r
      omega

/-- The fast-forward loop never moves the cursor backwards. -/
theorem ffwd_fst_ge (freq : Int) (hf : 1 ≤ freq) :
    ∀ (fuel : Nat) (r ws : Date), MonthOk r →
      toRD r ≤ toRD (ffwd fuel r ws freq).1 := by
  intro fuel
  induction fuel with
  | zero => intro r ws _; exact le_refl _
  | succ fuel ih =>
    intro r ws h
    rw [ffwd]
    split
    · have h1 := toRD_lt_addMonths r freq h hf
      have h2 := ih (addMonths r freq) ws (addMonths_monthOk r freq)
      omega
    · exact le_refl _

/-- The fast-forward loop only spends guard budget. -/
theorem ffwd_snd_le : ∀ (fuel : Nat) (r ws : Date) (freq : Int),
    (ffwd fuel r ws freq).2 ≤ fuel := by
  intro fuel
  induction fuel with
  | zero => intro r ws freq; exact le_refl _
  | succ fuel ih =>
    intro r ws freq
    rw [ffwd]
    split
    · exact le_trans (ih _ _ _) (Nat.le_succ _)
    · exact le_refl _

/-- Every event the emit loop produces, starting from a cursor at or past the
window start, lies inside the window. -/
theorem emitLoop_mem_window (aId vendor title : String) (noticeDays : Int)
    (ws we : Date) (freq : Int) (hf : 1 ≤ freq) :
    ∀ (fuel : Nat) (r : Date), MonthOk r → toRD ws ≤ toRD r →
      ∀ e ∈ emitLoop aId vendor title noticeDays ws we freq fuel r,
        toRD ws ≤ toRD e.date ∧ toRD e.date ≤ toRD we := by
  intro fuel
  induction fuel with
  | zero => intro r _ _ e he; simp [emitLoop] at he
  | succ fuel ih =>
    intro r hok hge e he
    rw [emitLoop] at he
    by_cases hwe : toRD r ≤ toRD we
    · rw [if_pos hwe] at he
      simp only [List.mem_cons, List.mem_append] at he
      rcases he with he | he | he
      · subst he; simp only [mkRenewalEvent]; exact ⟨hge, hwe⟩
      · by_cases hnd : 0 < noticeDays
        · rw [if_pos hnd] at he
          by_cases hw : toRD ws ≤ toRD (addDays r (-noticeDays)) ∧
              toRD (addDays r (-noticeDays)) ≤ toRD we
          · rw [if_pos hw] at he
            simp only [List.mem_singleton] at he
            subst he
            simpa only [mkNoticeEvent] using hw
          · rw [if_neg hw] at he
            simp at he
        · rw [if_neg hnd] at he
          simp at he
      · have h1 := toRD_lt_addMonths r freq hok hf
        exact ih (addMonths r freq) (addMonths_monthOk r freq) (by omega) e he
    · rw [if_neg hwe] at he
      simp at he

/-- Window clipping for the calendar generator. -/
theorem generateEvents_within_window (a : AgreementRow) (ws we : Date) (cap : Nat) :
    ∀ e ∈ generateEventsFromAgreement a ws we cap,
      toRD ws ≤ toRD e.date ∧ toRD e.date ≤ toRD we := by
  intro e he
  cases hend : a.end_on with
  | none => simp [generateEventsFromAgreement, hend] at he
  | some endISO =>
    simp only [generateEventsFromAgreement, hend] at he
    set freq := effectiveFreq a.renewal_frequency_months with hfreq
    have hf1 : 1 ≤ freq := effectiveFreq_ge_one _
    rcases hffwd : ffwd cap (parseISO endISO) ws freq with ⟨r, fuel⟩
    by_cases hauto : autoOf a = true
    · rw [hauto] at he
      simp only [if_true, ← hfreq, hffwd] at he
      rw [List.mem_append] at he
      rcases he with he | he
      · by_cases hterm : toRD ws ≤ toRD (parseISO endISO) ∧
            toRD (parseISO endISO) ≤ toRD we
        · rw [if_pos hterm] at he
          simp only [List.mem_singleton] at he
          subst he
          exact hterm
        · rw [if_neg hterm] at he
          simp at he
      · cases fuel with
        | zero => simp [emitLoop] at he
        | succ fuel' =>
          have hge : toRD ws ≤ toRD r := by
            have := ffwd_ge cap (parseISO endISO) ws freq
            rw [hffwd] at this
            exact this (by simp)
          have hok : MonthOk r := by
            have := ffwd_monthOk cap (parseISO endISO) ws freq (parseISO_monthOk _)
            rw [hffwd] at this
            exact this
          exact emitLoop_mem_window a.id a.vendor a.title (noticeDaysOf a)
            ws we freq hf1 (Nat.succ fuel') r hok hge e he
    · rw [if_neg hauto] at he
      by_cases hterm : toRD ws ≤ toRD (parseISO endISO) ∧
          toRD (parseISO endISO) ≤ toRD we
      · rw [if_pos hterm] at he
        simp only [List.mem_singleton] at he
        subst he
        exact hterm
      · rw [if_neg hterm] at he
        simp at he

/-- Window clipping for the `buildKeyDates` renewal loop (every emitted row
is explicitly guarded by both window bounds). -/
theorem bkdLoop_mem_window (aId : String) (noticeDays : Int) (ws we : Date)
    (freq : Int) :
    ∀ (fuel : Nat) (r : Date), ∀ row ∈ bkdLoop aId noticeDays ws we freq fuel r,
      toRD ws ≤ toRD row.occurs_on ∧ toRD row.occurs_on ≤ toRD we := by
  intro fuel
  induction fuel with
  | zero => intro r row hrow; simp [bkdLoop] at hrow
  | succ fuel ih =>
    intro r row hrow
    rw [bkdLoop] at hrow
    by_cases hwe : toRD r ≤ toRD we
    · rw [if_pos hwe] at hrow
      rw [List.mem_append] at hrow
      rcases hrow with hrow | hrow
      · by_cases hws : toRD ws ≤ toRD r
        · rw [if_pos hws] at hrow
          simp only [List.mem_cons] at hrow
          rcases hrow with hrow | hrow
          · subst hrow; exact ⟨hws, hwe⟩
          · by_cases hnd : 0 < noticeDays
            · rw [if_pos hnd] at hrow
              by_cases hw : toRD ws ≤ toRD (addDays r (-noticeDays)) ∧
                  toRD (addDays r (-noticeDays)) ≤ toRD we
              · rw [if_pos hw] at hrow
                simp only [List.mem_singleton] at hrow
                subst hrow
                exact hw
              · rw [if_neg hw] at hrow
                simp at hrow
            · rw [if_neg hnd] at hrow
              simp at hrow
        · rw [if_neg hws] at hrow
          simp at hrow
      · exact ih _ row hrow
    · rw [if_neg hwe] at hrow
      simp at hrow

/-- Window clipping for `buildKeyDates` as a whole. -/
theorem buildKeyDates_within_window (a : AgreementRow) (today : Date)
    (monthsAhead : Int) :
    ∀ row ∈ buildKeyDates a today monthsAhead,
      toRD today ≤ toRD row.occurs_on ∧
        toRD row.occurs_on ≤ toRD (addMonths today monthsAhead) := by
  intro row hrow
  cases hend : a.end_on with
  | none => simp [buildKeyDates, hend] at hrow
  | some endISO =>
    simp only [buildKeyDates, hend] at hrow
    by_cases hauto : autoOf a = true
    · rw [hauto] at hrow
      simp only [if_true] at hrow
      rw [List.mem_append] at hrow
      rcases hrow with hrow | hrow
      · by_cases hterm : toRD today ≤ toRD (parseISO endISO) ∧
            toRD (parseISO endISO) ≤ toRD (addMonths today monthsAhead)
        · rw [if_pos hterm] at hrow
          simp only [List.mem_singleton] at hrow
          subst hrow
          exact hterm
        · rw [if_neg hterm] at hrow
          simp at hrow
      · exact bkdLoop_mem_window a.id (noticeDaysOf a) today
          (addMonths today monthsAhead) _ 120 (parseISO endISO) row hrow
    · rw [if_neg hauto] at hrow
      by_cases hterm : toRD today ≤ toRD (parseISO endISO) ∧
          toRD (parseISO endISO) ≤ toRD (addMonths today monthsAhead)
      · rw [if_pos hterm] at hrow
        simp only [List.mem_singleton] at hrow
        subst hrow
        exact hterm
      · rw [if_neg hterm] at hrow
        simp at hrow

/-!
## Claim theorems (first group)
-/

/-- C1: for the agreement `{end_on: 2025-01-15, auto_renews: true,
renewal_frequency_months: 12, notice_days: 30}` and the window
`[2025-01-01, 2026-02-01]`, the event generator returns exactly four events:
a Term End on 2025-01-15, a Renewal on 2025-01-15, a Renewal on 2026-01-15,
and a Notice Deadline on 2025-12-16, and no others. -/
theorem claim_C1_scenario :
    (generateEventsFromAgreement scenarioAgreement (mkDate 2025 1 1) (mkDate 2026 2 1) 36).map
        (fun e => (e.type, e.date)) =
      [(EventType.termination, ⟨2025, 1, 15⟩), (EventType.renewal, ⟨2025, 1, 15⟩),
       (EventType.renewal, ⟨2026, 1, 15⟩), (EventType.notice, ⟨2025, 12, 16⟩)] := by
  decide

/-- C2: for every agreement and window, every event emitted by the event
generator (all three kinds) occurs at or after the window start and at or
before the window end; likewise every row produced by the PATCH route's
`buildKeyDates` lies in its window `[today, today + monthsAhead months]`. -/
theorem claim_C2_window_clipping (a : AgreementRow) (ws we today : Date)
    (cap : Nat) (monthsAhead : Int) :
    (∀ e ∈ generateEventsFromAgreement a ws we cap,
        toRD ws ≤ toRD e.date ∧ toRD e.date ≤ toRD we)
    ∧ (∀ row ∈ buildKeyDates a today monthsAhead,
        toRD today ≤ toRD row.occurs_on ∧
          toRD row.occurs_on ≤ toRD (addMonths today monthsAhead)) :=
  ⟨generateEvents_within_window a ws we cap,
   buildKeyDates_within_window a today monthsAhead⟩

/-- The scenario's Term End event, used as the C2 witness input. -/
def c2WitnessEvent : CalendarEvent :=
  { id := "a1-term-2025-01-15", title := "Term End", vendor := "Acme",
    date := ⟨2025, 1, 15⟩, type := EventType.termination,
    description := "End of current term", agreementId := "a1" }

/-- Witness for C2 at a concrete input: the scenario's Term End event is in
the generated list and inside the window. -/
theorem claim_C2_window_clipping_witness :
    c2WitnessEvent ∈ generateEventsFromAgreement scenarioAgreement
        (mkDate 2025 1 1) (mkDate 2026 2 1) 36
    ∧ (toRD (mkDate 2025 1 1) ≤ toRD c2WitnessEvent.date
        ∧ toRD c2WitnessEvent.date ≤ toRD (mkDate 2026 2 1)) :=
  ⟨by decide,
   (claim_C2_window_clipping scenarioAgreement (mkDate 2025 1 1) (mkDate 2026 2 1)
      (mkDate 2025 1 1) 36 60).1 c2WitnessEvent (by decide)⟩

/-- C4: an agreement with `auto_renews = false` generates at most one event,
and any generated event is a Term End (never Renewal or Notice Deadline). -/
theorem claim_C4_no_renewal_bound (a : AgreementRow) (ws we : Date) (cap : Nat)
    (h : a.auto_renews = some false) :
    (generateEventsFromAgreement a ws we cap).length ≤ 1
    ∧ ∀ e ∈ generateEventsFromAgreement a ws we cap,
        e.type = EventType.termination := by
  have hauto : ¬(autoOf a = true) := by simp [autoOf, h]
  constructor
  · cases hend : a.end_on with
    | none => simp [generateEventsFromAgreement, hend]
    | some endISO =>
      simp only [generateEventsFromAgreement, hend]
      rw [if_neg hauto]
      split
      · simp
      · simp
  · intro e he
    cases hend : a.end_on with
    | none => simp [generateEventsFromAgreement, hend] at he
    | some endISO =>
      simp only [generateEventsFromAgreement, hend] at he
      rw [if_neg hauto] at he
      split at he
      · simp only [List.mem_singleton] at he
        subst he
        rfl
      · simp at he

/-- A concrete non-renewing agreement for the C4 witness. -/
def nonRenewingAgreement : AgreementRow :=
  { id := "b1", vendor := "VendorB", title := "Lease"
    end_on := some ⟨2025, 6, 1⟩
    auto_renews := some false
    notice_days := some 10
    renewal_frequency_months := some 12 }

/-- Witness for C4 at a concrete input. -/
theorem claim_C4_no_renewal_bound_witness :
    nonRenewingAgreement.auto_renews = some false
    ∧ ((generateEventsFromAgreement nonRenewingAgreement (mkDate 2025 1 1)
          (mkDate 2026 1 1) 36).length ≤ 1
      ∧ ∀ e ∈ generateEventsFromAgreement nonRenewingAgreement (mkDate 2025 1 1)
          (mkDate 2026 1 1) 36, e.type = EventType.termination) :=
  ⟨rfl, claim_C4_no_renewal_bound nonRenewingAgreement (mkDate 2025 1 1)
    (mkDate 2026 1 1) 36 rfl⟩

/-- C6 counterexample: 2024 is a leap year, so the claim's pinned value is
wrong — `addMonths(2024-01-31, 1)` rolls Jan 31 → Feb 31 → **March 2** 2024
(Feb 2024 has 29 days), not March 3. -/
theorem claim_C6_counterexample :
    addMonths (mkDate 2024 1 31) 1 = ⟨2024, 3, 2⟩
    ∧ addMonths (mkDate 2024 1 31) 1 ≠ ⟨2024, 3, 3⟩ := by
  decide

/-- C6 amended: `addMonths` lets the day-of-month roll into the following
month by Gregorian normalization rather than clamping to month end; in the
leap year 2024, adding 1 month to January 31 yields March 2 (not a clamped
February 29), while in a non-leap year such as 2025 it yields March 3. -/
theorem claim_C6_month_overflow :
    addMonths (mkDate 2024 1 31) 1 = mkDate 2024 3 2
    ∧ addMonths (mkDate 2024 1 31) 1 ≠ mkDate 2024 2 29
    ∧ addMonths (mkDate 2025 1 31) 1 = mkDate 2025 3 3 := by
  decide

/-- Notice pairing inside the emit loop: the notice-typed events are exactly
the in-window `renewal − noticeDays` dates of the renewal-typed events, each
built (id and description included) from its renewal. -/
theorem emitLoop_notice_pairing (aId vendor title : String) (nd : Int)
    (ws we : Date) (freq : Int) :
    ∀ (fuel : Nat) (r : Date),
      (emitLoop aId vendor title nd ws we freq fuel r).filter
          (fun e => decide (e.type = EventType.notice))
        = ((emitLoop aId vendor title nd ws we freq fuel r).filter
            (fun e => decide (e.type = EventType.renewal))).filterMap
            (fun e =>
              if 0 < nd ∧ toRD ws ≤ toRD (addDays e.date (-nd))
                  ∧ toRD (addDays e.date (-nd)) ≤ toRD we then
                some (mkNoticeEvent aId vendor nd (addDays e.date (-nd)) e.date)
              else none) := by
  intro fuel
  induction fuel with
  | zero => intro r; simp [emitLoop]
  | succ fuel ih =>
    intro r
    rw [emitLoop]
    by_cases hwe : toRD r ≤ toRD we
    · rw [if_pos hwe]
      by_cases hnd : 0 < nd
      · by_cases hw : toRD ws ≤ toRD (addDays r (-nd))
            ∧ toRD (addDays r (-nd)) ≤ toRD we
        · rw [if_pos hnd, if_pos hw]
          simp [mkRenewalEvent, mkNoticeEvent, hnd, hw.1, hw.2, ih]
        · rw [if_pos hnd, if_neg hw]
          rw [Classical.not_and_iff_or_not_not] at hw
          rcases hw with hw | hw <;>
            simp [mkRenewalEvent, mkNoticeEvent, hnd, hw, ih]
      · rw [if_neg hnd]
        simp [mkRenewalEvent, mkNoticeEvent, hnd, ih]
    · rw [if_neg hwe]
      simp

/-- C3: notice pairing for the event generator.  The notice-typed events of
the output are exactly the images of its renewal-typed events under
"subtract `noticeDays` days", kept only when `noticeDays > 0` and the
computed date falls inside the window; each such Notice Deadline is the one
built from (and referencing, via its id and description) that renewal, so a
renewal whose notice date falls outside the window has no Notice Deadline,
and no other Notice Deadline references it. -/
theorem claim_C3_notice_pairing (a : AgreementRow) (ws we : Date) (cap : Nat) :
    (generateEventsFromAgreement a ws we cap).filter
        (fun e => decide (e.type = EventType.notice))
      = ((generateEventsFromAgreement a ws we cap).filter
          (fun e => decide (e.type = EventType.renewal))).filterMap
          (fun e =>
            if 0 < noticeDaysOf a
                ∧ toRD ws ≤ toRD (addDays e.date (-(noticeDaysOf a)))
                ∧ toRD (addDays e.date (-(noticeDaysOf a))) ≤ toRD we then
              some (mkNoticeEvent a.id a.vendor (noticeDaysOf a)
                (addDays e.date (-(noticeDaysOf a))) e.date)
            else none) := by
  cases hend : a.end_on with
  | none => simp [generateEventsFromAgreement, hend]
  | some endISO =>
    simp only [generateEventsFromAgreement, hend]
    set freq := effectiveFreq a.renewal_frequency_months with hfreq
    rcases hffwd : ffwd cap (parseISO endISO) ws freq with ⟨r, fuel⟩
    by_cases hauto : autoOf a = true
    · rw [if_pos hauto]
      simp only [hffwd]
      by_cases hterm : toRD ws ≤ toRD (parseISO endISO) ∧
          toRD (parseISO endISO) ≤ toRD we
      · rw [if_pos hterm]
        have hpair := emitLoop_notice_pairing a.id a.vendor a.title
          (noticeDaysOf a) ws we freq fuel r
        simp [hpair]
      · rw [if_neg hterm]
        simp only [List.nil_append]
        exact emitLoop_notice_pairing a.id a.vendor a.title (noticeDaysOf a) ws we freq fuel r
    · rw [if_neg hauto]
      by_cases hterm : toRD ws ≤ toRD (parseISO endISO) ∧
          toRD (parseISO endISO) ≤ toRD we
      · rw [if_pos hterm]
        simp
      · rw [if_neg hterm]
        simp

/-- The emit loop performs at most `fuel` iterations, hence emits at most
`fuel` renewal events. -/
theorem emitLoop_renewal_count (aId vendor title : String) (nd : Int)
    (ws we : Date) (freq : Int) :
    ∀ (fuel : Nat) (r : Date),
      ((emitLoop aId vendor title nd ws we freq fuel r).filter
        (fun e => decide (e.type = EventType.renewal))).length ≤ fuel := by
  intro fuel
  induction fuel with
  | zero => intro r; simp [emitLoop]
  | succ fuel ih =>
    intro r
    rw [emitLoop]
    by_cases hwe : toRD r ≤ toRD we
    · rw [if_pos hwe]
      have hih := ih (addMonths r freq)
      by_cases hnd : 0 < nd
      · by_cases hw : toRD ws ≤ toRD (addDays r (-nd))
            ∧ toRD (addDays r (-nd)) ≤ toRD we
        · rw [if_pos hnd, if_pos hw]
          simp only [List.filter_cons, List.filter_append, List.filter_singleton]
          simp [mkRenewalEvent, mkNoticeEvent]
          omega
        · rw [if_pos hnd, if_neg hw]
          simp [mkRenewalEvent]
          omega
      · rw [if_neg hnd]
        simp [mkRenewalEvent]
        omega
    · rw [if_neg hwe]
      simp

/-- The `buildKeyDates` loop emits at most `fuel` renewal rows. -/
theorem bkdLoop_renewal_count (aId : String) (nd : Int) (ws we : Date)
    (freq : Int) :
    ∀ (fuel : Nat) (r : Date),
      ((bkdLoop aId nd ws we freq fuel r).filter
        (fun row => decide (row.event_kind = EventType.renewal))).length ≤ fuel := by
  intro fuel
  induction fuel with
  | zero => intro r; simp [bkdLoop]
  | succ fuel ih =>
    intro r
    rw [bkdLoop]
    by_cases hwe : toRD r ≤ toRD we
    · rw [if_pos hwe]
      have hih := ih (addMonths r freq)
      by_cases hws : toRD ws ≤ toRD r
      · rw [if_pos hws]
        by_cases hnd : 0 < nd
        · by_cases hw : toRD ws ≤ toRD (addDays r (-nd))
              ∧ toRD (addDays r (-nd)) ≤ toRD we
          · rw [if_pos hnd, if_pos hw]
            simp
            omega
          · rw [if_pos hnd, if_neg hw]
            simp
            omega
        · rw [if_neg hnd]
          simp
          omega
      · rw [if_neg hws]
        simp
        omega
    · rw [if_neg hwe]
      simp

/-- The ICS loop emits at most `fuel` renewal events. -/
theorem icsLoop_renewal_count (aId vendor title : String) (nd : Int)
    (today horizon : Date) (freq : Int) :
    ∀ (fuel : Nat) (r : Date),
      ((icsLoop aId vendor title nd today horizon freq fuel r).filter
        (fun e => decide (e.kind = EventType.renewal))).length ≤ fuel := by
  intro fuel
  induction fuel with
  | zero => intro r; simp [icsLoop]
  | succ fuel ih =>
    intro r
    rw [icsLoop]
    by_cases hho : toRD r ≤ toRD horizon
    · rw [if_pos hho]
      have hih := ih (addMonths r freq)
      by_cases hto : toRD today ≤ toRD r
      · rw [if_pos hto]
        by_cases hnd : 0 < nd
        · by_cases hw : toRD today ≤ toRD (addDays r (-nd))
          · rw [if_pos hnd, if_pos hw]
            simp [mkIcsRenewalEvent, mkIcsNoticeEvent]
            omega
          · rw [if_pos hnd, if_neg hw]
            simp [mkIcsRenewalEvent]
            omega
        · rw [if_neg hnd]
          simp [mkIcsRenewalEvent]
          omega
      · rw [if_neg hto]
        simp
        omega
    · rw [if_neg hho]
      simp

/-- Renewal-count bound for the whole generator. -/
theorem generateEvents_renewal_count (a : AgreementRow) (ws we : Date) (cap : Nat) :
    ((generateEventsFromAgreement a ws we cap).filter
      (fun e => decide (e.type = EventType.renewal))).length ≤ cap := by
  cases hend : a.end_on with
  | none => simp [generateEventsFromAgreement, hend]
  | some endISO =>
    simp only [generateEventsFromAgreement, hend]
    set freq := effectiveFreq a.renewal_frequency_months with hfreq
    rcases hffwd : ffwd cap (parseISO endISO) ws freq with ⟨r, fuel⟩
    have hfle : fuel ≤ cap := by
      have := ffwd_snd_le cap (parseISO endISO) ws freq
      rw [hffwd] at this
      exact this
    by_cases hauto : autoOf a = true
    · rw [if_pos hauto]
      simp only [hffwd]
      have hcount := emitLoop_renewal_count a.id a.vendor a.title (noticeDaysOf a)
        ws we freq fuel r
      by_cases hterm : toRD ws ≤ toRD (parseISO endISO) ∧
          toRD (parseISO endISO) ≤ toRD we
      · rw [if_pos hterm]
        simp
        omega
      · rw [if_neg hterm]
        simp
        omega
    · rw [if_neg hauto]
      split <;> simp

/-- Renewal-count bound for `buildKeyDates` (cap 120). -/
theorem buildKeyDates_renewal_count (a : AgreementRow) (today : Date)
    (monthsAhead : Int) :
    ((buildKeyDates a today monthsAhead).filter
      (fun row => decide (row.event_kind = EventType.renewal))).length ≤ 120 := by
  cases hend : a.end_on with
  | none => simp [buildKeyDates, hend]
  | some endISO =>
    simp only [buildKeyDates, hend]
    by_cases hauto : autoOf a = true
    · rw [if_pos hauto]
      have hcount := bkdLoop_renewal_count a.id (noticeDaysOf a) today
        (addMonths today monthsAhead) (effectiveFreq a.renewal_frequency_months)
        120 (parseISO endISO)
      by_cases hterm : toRD today ≤ toRD (parseISO endISO) ∧
          toRD (parseISO endISO) ≤ toRD (addMonths today monthsAhead)
      · rw [if_pos hterm]
        simp
        omega
      · rw [if_neg hterm]
        simp
        omega
    · rw [if_neg hauto]
      split <;> simp

/-- Renewal-count bound for the ICS export (cap 24). -/
theorem icsEvents_renewal_count (a : AgreementRow) (today : Date) :
    ((icsEventsFor a today).filter
      (fun e => decide (e.kind = EventType.renewal))).length ≤ 24 := by
  cases hend : a.end_on with
  | none => simp [icsEventsFor, hend]
  | some endISO =>
    simp only [icsEventsFor, hend]
    by_cases hauto : autoOf a = true
    · rw [if_pos hauto]
      exact icsLoop_renewal_count a.id a.vendor a.title (noticeDaysOf a) today
        (addMonths today 12) (effectiveFreq a.renewal_frequency_months)
        24 (parseISO endISO)
    · rw [if_neg hauto]
      split <;> simp

/-- A zero cadence is normalized to 12 before any loop runs: the generator
behaves identically for `renewal_frequency_months = 0` and `= 12`. -/
theorem generateEvents_freq_zero (a : AgreementRow) (ws we : Date) (cap : Nat) :
    generateEventsFromAgreement { a with renewal_frequency_months := some 0 } ws we cap
      = generateEventsFromAgreement { a with renewal_frequency_months := some 12 } ws we cap := by
  cases a
  rfl

/-- Same normalization in `buildKeyDates`. -/
theorem buildKeyDates_freq_zero (a : AgreementRow) (today : Date)
    (monthsAhead : Int) :
    buildKeyDates { a with renewal_frequency_months := some 0 } today monthsAhead
      = buildKeyDates { a with renewal_frequency_months := some 12 } today monthsAhead := by
  cases a
  rfl

/-- C8: every renewal enumeration runs under a hard iteration cap — the
shared guard of the calendar generator (36 by default at its call site, `cap`
here) bounds fast-forward and emission together, `buildKeyDates` is capped at
120 and the ICS loop at 24 — so the emitted renewal sequence is silently
truncated to at most that many entries (the functions are total and return a
plain, possibly shortened, list rather than throwing); and a cadence of 0 is
never iterated: it is normalized to 12 upstream of every loop. -/
theorem claim_C8_iteration_caps (a : AgreementRow) (ws we today : Date)
    (cap : Nat) (monthsAhead : Int) :
    (((generateEventsFromAgreement a ws we cap).filter
        (fun e => decide (e.type = EventType.renewal))).length ≤ cap)
    ∧ (((buildKeyDates a today monthsAhead).filter
        (fun row => decide (row.event_kind = EventType.renewal))).length ≤ 120)
    ∧ (((icsEventsFor a today).filter
        (fun e => decide (e.kind = EventType.renewal))).length ≤ 24)
    ∧ generateEventsFromAgreement { a with renewal_frequency_months := some 0 } ws we cap
        = generateEventsFromAgreement { a with renewal_frequency_months := some 12 } ws we cap
    ∧ buildKeyDates { a with renewal_frequency_months := some 0 } today monthsAhead
        = buildKeyDates { a with renewal_frequency_months := some 12 } today monthsAhead :=
  ⟨generateEvents_renewal_count a ws we cap,
   buildKeyDates_renewal_count a today monthsAhead,
   icsEvents_renewal_count a today,
   generateEvents_freq_zero a ws we cap,
   buildKeyDates_freq_zero a today monthsAhead⟩

/-!
## Ordering of the delivered event sequence (C5)
-/

/-- The kind order the spec claims for same-date ties:
`TermEnd < Renewal < NoticeDeadline`. -/
def kindRank : EventType → Nat
  | EventType.termination => 0
  | EventType.renewal => 1
  | EventType.notice => 2

/-- Byte-wise lexicographic order on strings (the tie-break the spec claims
for `agreementId`), as a computable comparison on the character lists. -/
def charListLe : List Char → List Char → Bool
  | [], _ => true
  | _ :: _, [] => false
  | c1 :: t1, c2 :: t2 => if c1 = c2 then charListLe t1 t2 else decide (c1 < c2)

/-- The full ordering the spec claims for the delivered sequence: ascending
`occursOn`, ties broken by kind order `TermEnd < Renewal < NoticeDeadline`,
then by `agreementId`.  (This is the claim's ordering, not the source's.) -/
def specOrdered (e1 e2 : CalendarEvent) : Prop :=
  toRD e1.date < toRD e2.date
  ∨ (toRD e1.date = toRD e2.date
      ∧ (kindRank e1.type < kindRank e2.type
        ∨ (e1.type = e2.type
            ∧ charListLe e1.agreementId.data e2.agreementId.data = true)))

instance (e1 e2 : CalendarEvent) : Decidable (specOrdered e1 e2) := by
  unfold specOrdered; infer_instance

/-- Auto-renewing agreement "a" for the C5 counterexample. -/
def tieAgreementA : AgreementRow :=
  { id := "a", vendor := "VA", title := "TA"
    end_on := some ⟨2025, 6, 1⟩
    auto_renews := some true
    notice_days := some 0
    renewal_frequency_months := some 12 }

/-- Non-renewing agreement "b" with the same end date, for the C5
counterexample. -/
def tieAgreementB : AgreementRow :=
  { id := "b", vendor := "VB", title := "TB"
    end_on := some ⟨2025, 6, 1⟩
    auto_renews := some false
    notice_days := some 0
    renewal_frequency_months := some 12 }

/-- C5 counterexample: the sequence the calendar view delivers is sorted by
date only; at equal dates it keeps per-row generation order.  With agreement
"a" (auto-renewing) listed before agreement "b" (non-renewing), both ending
2025-06-01, the delivered order is Term End (a), Renewal (a), Term End (b) —
agreement a's Renewal precedes agreement b's Term End on the same date,
violating the claimed `TermEnd < Renewal < NoticeDeadline`-then-id tie
order. -/
theorem claim_C5_counterexample :
    ¬ List.Pairwise specOrdered
      (calendarAll [tieAgreementA, tieAgreementB] (mkDate 2025 1 1)
        (mkDate 2026 1 1) 36) := by
  have hs : (([tieAgreementA, tieAgreementB].map
        (fun a => generateEventsFromAgreement a (mkDate 2025 1 1)
          (mkDate 2026 1 1) 36)).flatten).Pairwise
      (fun e1 e2 =>
        (fun e1 e2 : CalendarEvent => decide (toRD e1.date ≤ toRD e2.date)) e1 e2
          = true) := by
    decide
  unfold calendarAll
  rw [List.mergeSort_of_sorted hs]
  decide

/-- C5 amended: the delivered sequence is sorted ascending by occurs-on
date; same-date ties are left in generation order (agreement row order, then
per-agreement emission order) rather than being re-ordered by kind or
agreement id. -/
theorem claim_C5_sorted_by_date (rows : List AgreementRow) (ws we : Date)
    (cap : Nat) :
    List.Pairwise (fun e1 e2 => toRD e1.date ≤ toRD e2.date)
      (calendarAll rows ws we cap) := by
  unfold calendarAll
  have h := @List.sorted_mergeSort CalendarEvent
    (fun e1 e2 => decide (toRD e1.date ≤ toRD e2.date))
    (by
      intro a b c hab hbc
      simp only [decide_eq_true_eq] at hab hbc ⊢
      omega)
    (by
      intro a b
      simp only [Bool.or_eq_true, decide_eq_true_eq]
      omega)
    ((rows.map (fun a => generateEventsFromAgreement a ws we cap)).flatten)
  refine h.imp ?_
  intro a b hab
  simpa using hab

/-!
## Cron reminder selection (C9) and ICS term-end policy (C10)
-/

/-- A non-renewing agreement whose term ends on the run date itself, for the
C9 counterexample. -/
def sameDayAgreement : AgreementRow :=
  { id := "c1", vendor := "VC", title := "Support"
    end_on := some ⟨2025, 3, 10⟩
    auto_renews := some false
    notice_days := some 0
    renewal_frequency_months := none }

/-- C9 counterexample: on 2025-03-10 the agreement above has exactly one
generated event, a same-day Term End (day offset 0), yet the cron handler
selects nothing — the selection condition is `d === 30 || d === 60 || d ===
90` with no same-day case. -/
theorem claim_C9_counterexample :
    (nextEvents sameDayAgreement (mkDate 2025 3 10)).map
        (fun e => diffInDays e.date (mkDate 2025 3 10)) = [0]
    ∧ reminderItems sameDayAgreement (mkDate 2025 3 10) = [] := by
  decide

/-- C9 amended: the cron reminder selection includes a generated event on a
given run date exactly when the day difference between its occurs-on date and
the run date equals 30, 60 or 90; any other offset — including 0 for a
same-day event — is never selected. -/
theorem claim_C9_reminder_selection (a : AgreementRow) (today : Date) :
    (∀ it ∈ reminderItems a today,
      it.inDays = 30 ∨ it.inDays = 60 ∨ it.inDays = 90)
    ∧ (∀ ev ∈ nextEvents a today,
        (diffInDays ev.date today = 30 ∨ diffInDays ev.date today = 60
          ∨ diffInDays ev.date today = 90) →
        ({ vendor := a.vendor, title := a.title, kind := ev.label,
           onDate := toISO ev.date,
           inDays := diffInDays ev.date today } : ReminderItem)
          ∈ reminderItems a today) := by
  constructor
  · intro it hit
    simp only [reminderItems, List.mem_filterMap] at hit
    obtain ⟨ev, hev, hf⟩ := hit
    by_cases hd : diffInDays ev.date today = 30 ∨ diffInDays ev.date today = 60
        ∨ diffInDays ev.date today = 90
    · rw [if_pos hd] at hf
      simp only [Option.some.injEq] at hf
      subst hf
      exact hd
    · rw [if_neg hd] at hf
      cases hf
  · intro ev hev hd
    simp only [reminderItems, List.mem_filterMap]
    exact ⟨ev, hev, by rw [if_pos hd]⟩

/-- A non-renewing agreement ending exactly 30 days after the run date, for
the C9 witness. -/
def thirtyDayAgreement : AgreementRow :=
  { id := "d1", vendor := "VD", title := "CDN"
    end_on := some ⟨2025, 4, 9⟩
    auto_renews := some false
    notice_days := some 0
    renewal_frequency_months := none }

/-- Witness for the amended C9 at a concrete input: a Term End exactly 30
days out is selected. -/
theorem claim_C9_reminder_selection_witness :
    ({ kind := ReminderKind.TERM_END, date := ⟨2025, 4, 9⟩, label := "Term End" }
          : ReminderEvent)
        ∈ nextEvents thirtyDayAgreement (mkDate 2025 3 10)
    ∧ ({ vendor := "VD", title := "CDN", kind := "Term End",
         onDate := "2025-04-09", inDays := 30 } : ReminderItem)
        ∈ reminderItems thirtyDayAgreement (mkDate 2025 3 10) :=
  ⟨by decide,
   (claim_C9_reminder_selection thirtyDayAgreement (mkDate 2025 3 10)).2
     { kind := ReminderKind.TERM_END, date := ⟨2025, 4, 9⟩, label := "Term End" }
     (by decide) (by decide)⟩

/-- The ICS renewal loop never produces a termination-kind event. -/
theorem icsLoop_no_term (aId vendor title : String) (nd : Int)
    (today horizon : Date) (freq : Int) :
    ∀ (fuel : Nat) (r : Date),
      ∀ e ∈ icsLoop aId vendor title nd today horizon freq fuel r,
        e.kind ≠ EventType.termination := by
  intro fuel
  induction fuel with
  | zero => intro r e he; simp [icsLoop] at he
  | succ fuel ih =>
    intro r e he
    rw [icsLoop] at he
    by_cases hho : toRD r ≤ toRD horizon
    · rw [if_pos hho] at he
      rw [List.mem_append] at he
      rcases he with he | he
      · by_cases hto : toRD today ≤ toRD r
        · rw [if_pos hto] at he
          simp only [List.mem_cons] at he
          rcases he with he | he
          · subst he; simp [mkIcsRenewalEvent]
          · by_cases hnd : 0 < nd
            · rw [if_pos hnd] at he
              by_cases hw : toRD today ≤ toRD (addDays r (-nd))
              · rw [if_pos hw] at he
                simp only [List.mem_singleton] at he
                subst he
                simp [mkIcsNoticeEvent]
              · rw [if_neg hw] at he
                simp at he
            · rw [if_neg hnd] at he
              simp at he
        · rw [if_neg hto] at he
          simp at he
      · exact ih _ e he
    · rw [if_neg hho] at he
      simp at he

/-- C10: the ICS feed emits a term-end `VEVENT` only for agreements that do
not auto-renew (for an auto-renewing agreement no termination event appears
even when `end_on` lies in the exported horizon); and for an auto-renewing
agreement whose `end_on` lies in `[today, today + 12 months]`, the first
`VEVENT` is the renewal dated on `end_on` itself. -/
theorem claim_C10_ics_term_end (a : AgreementRow) (today : Date) :
    (∀ e ∈ icsEventsFor a today,
      e.kind = EventType.termination → autoOf a = false)
    ∧ (autoOf a = true →
        ∀ endISO, a.end_on = some endISO →
          toRD today ≤ toRD (parseISO endISO) →
          toRD (parseISO endISO) ≤ toRD (addMonths today 12) →
          (icsEventsFor a today).head?
            = some (mkIcsRenewalEvent a.id a.vendor a.title (parseISO endISO))) := by
  constructor
  · intro e he hterm
    by_cases hauto : autoOf a = true
    · exfalso
      cases hend : a.end_on with
      | none => simp [icsEventsFor, hend] at he
      | some endISO =>
        simp only [icsEventsFor, hend, if_pos hauto] at he
        exact icsLoop_no_term a.id a.vendor a.title (noticeDaysOf a) today
          (addMonths today 12) (effectiveFreq a.renewal_frequency_months)
          24 (parseISO endISO) e he hterm
    · exact Bool.not_eq_true _ ▸ (Bool.eq_false_iff.mpr (fun hc => hauto (by rw [hc])))
  · intro hauto endISO hend h1 h2
    simp only [icsEventsFor, hend, if_pos hauto]
    have h24 : (24 : Nat) = Nat.succ 23 := rfl
    rw [h24, icsLoop, if_pos h2, if_pos h1]
    simp

/-- Witness for C10 at a concrete input: the scenario agreement auto-renews,
its `end_on` 2025-01-15 lies in the year horizon from 2025-01-01, and the
first feed event is the renewal on `end_on` itself (and, per the first
conjunct, no term-end event can appear for it). -/
theorem claim_C10_ics_term_end_witness :
    autoOf scenarioAgreement = true
    ∧ scenarioAgreement.end_on = some ⟨2025, 1, 15⟩
    ∧ toRD (mkDate 2025 1 1) ≤ toRD (parseISO ⟨2025, 1, 15⟩)
    ∧ toRD (parseISO ⟨2025, 1, 15⟩) ≤ toRD (addMonths (mkDate 2025 1 1) 12)
    ∧ (icsEventsFor scenarioAgreement (mkDate 2025 1 1)).head?
        = some (mkIcsRenewalEvent scenarioAgreement.id scenarioAgreement.vendor
            scenarioAgreement.title (parseISO ⟨2025, 1, 15⟩)) :=
  ⟨by decide, rfl, by decide, by decide,
   (claim_C10_ics_term_end scenarioAgreement (mkDate 2025 1 1)).2 (by decide)
     ⟨2025, 1, 15⟩ rfl (by decide) (by decide)⟩

/-!
## Agreement of call sites (C7)

`buildKeyDates` skips pre-window cursor positions inside one 120-capped
loop; the calendar generator first fast-forwards and then emits, the two
loops sharing one `cap` counter.  With the same window and the same cap the
two produce the same (kind, date) sequence; the divergences across the
shipped call sites are their different caps and the ICS export's missing
Term End for auto-renewing agreements.
-/

/-- Phase 2: once the cursor has reached the window start, the
`buildKeyDates` loop and the calendar emit loop produce the same
(kind, date) sequence. -/
theorem bkdLoop_eq_emitLoop (aId vendor title : String) (nd : Int)
    (ws we : Date) (freq : Int) (hf : 1 ≤ freq) :
    ∀ (fuel : Nat) (r : Date), MonthOk r → toRD ws ≤ toRD r →
      (bkdLoop aId nd ws we freq fuel r).map
          (fun row => (row.event_kind, row.occurs_on))
        = (emitLoop aId vendor title nd ws we freq fuel r).map
            (fun e => (e.type, e.date)) := by
  intro fuel
  induction fuel with
  | zero => intro r _ _; simp [bkdLoop, emitLoop]
  | succ fuel ih =>
    intro r hok hws
    rw [bkdLoop, emitLoop]
    by_cases hwe : toRD r ≤ toRD we
    · rw [if_pos hwe, if_pos hwe, if_pos hws]
      have hrec := ih (addMonths r freq) (addMonths_monthOk r freq)
        (by have := toRD_lt_addMonths r freq hok hf; omega)
      by_cases hnd : 0 < nd
      · by_cases hw : toRD ws ≤ toRD (addDays r (-nd))
            ∧ toRD (addDays r (-nd)) ≤ toRD we
        · rw [if_pos hnd, if_pos hw, if_pos hnd, if_pos hw]
          simp [mkRenewalEvent, mkNoticeEvent, hrec]
        · rw [if_pos hnd, if_neg hw, if_pos hnd, if_neg hw]
          simp [mkRenewalEvent, hrec]
      · rw [if_neg hnd, if_neg hnd]
        simp [mkRenewalEvent, hrec]
    · rw [if_neg hwe, if_neg hwe]
      simp

/-- If the cursor is already past the window end, fast-forwarding and then
emitting produces nothing. -/
theorem emitLoop_after_ffwd_past_window (aId vendor title : String) (nd : Int)
    (ws we : Date) (freq : Int) (hf : 1 ≤ freq) :
    ∀ (fuel : Nat) (r : Date), MonthOk r → toRD we < toRD r →
      emitLoop aId vendor title nd ws we freq
        (ffwd fuel r ws freq).2 (ffwd fuel r ws freq).1 = [] := by
  intro fuel
  induction fuel with
  | zero => intro r _ _; rfl
  | succ fuel ih =>
    intro r hok hgt
    rw [ffwd]
    by_cases hlt : toRD r < toRD ws
    · rw [if_pos hlt]
      exact ih (addMonths r freq) (addMonths_monthOk r freq)
        (by have := toRD_lt_addMonths r freq hok hf; omega)
    · rw [if_neg hlt]
      show emitLoop aId vendor title nd ws we freq (Nat.succ fuel) r = []
      rw [emitLoop, if_neg (by omega)]

/-- The single skipping loop of `buildKeyDates` equals fast-forward followed
by the calendar emit loop, guard budgets matching step for step. -/
theorem bkdLoop_eq_ffwd_emitLoop (aId vendor title : String) (nd : Int)
    (ws we : Date) (freq : Int) (hf : 1 ≤ freq) :
    ∀ (fuel : Nat) (r : Date), MonthOk r →
      (bkdLoop aId nd ws we freq fuel r).map
          (fun row => (row.event_kind, row.occurs_on))
        = (emitLoop aId vendor title nd ws we freq
            (ffwd fuel r ws freq).2 (ffwd fuel r ws freq).1).map
            (fun e => (e.type, e.date)) := by
  intro fuel
  induction fuel with
  | zero => intro r _; simp [bkdLoop, ffwd, emitLoop]
  | succ fuel ih =>
    intro r hok
    by_cases hlt : toRD r < toRD ws
    · rw [ffwd, if_pos hlt, bkdLoop]
      by_cases hwe : toRD r ≤ toRD we
      · rw [if_pos hwe, if_neg (by omega)]
        simp only [List.nil_append]
        exact ih (addMonths r freq) (addMonths_monthOk r freq)
      · rw [if_neg hwe]
        rw [emitLoop_after_ffwd_past_window aId vendor title nd ws we freq hf
          fuel (addMonths r freq) (addMonths_monthOk r freq)
          (by have := toRD_lt_addMonths r freq hok hf; omega)]
        rfl
    · rw [ffwd, if_neg hlt]
      exact bkdLoop_eq_emitLoop aId vendor title nd ws we freq hf
        (Nat.succ fuel) r hok (by omega)

/-- `buildKeyDates` produces exactly the calendar generator's (kind, date)
sequence when the generator is run over the same window `[today, today +
monthsAhead months]` with `buildKeyDates`'s cap of 120. -/
theorem buildKeyDates_eq_generate (a : AgreementRow) (today : Date)
    (monthsAhead : Int) :
    (buildKeyDates a today monthsAhead).map
        (fun row => (row.event_kind, row.occurs_on))
      = (generateEventsFromAgreement a today (addMonths today monthsAhead) 120).map
          (fun e => (e.type, e.date)) := by
  cases hend : a.end_on with
  | none => simp [buildKeyDates, generateEventsFromAgreement, hend]
  | some endISO =>
    simp only [buildKeyDates, generateEventsFromAgreement, hend]
    set freq := effectiveFreq a.renewal_frequency_months with hfreq
    have hf : 1 ≤ freq := effectiveFreq_ge_one _
    rcases hffwd : ffwd 120 (parseISO endISO) today freq with ⟨r, fuel⟩
    by_cases hauto : autoOf a = true
    · rw [if_pos hauto, if_pos hauto]
      simp only [hffwd]
      rw [List.map_append, List.map_append]
      congr 1
      · by_cases hterm : toRD today ≤ toRD (parseISO endISO) ∧
            toRD (parseISO endISO) ≤ toRD (addMonths today monthsAhead)
        · rw [if_pos hterm, if_pos hterm]
          simp
        · rw [if_neg hterm, if_neg hterm]
          simp
      · have h := bkdLoop_eq_ffwd_emitLoop a.id a.vendor a.title (noticeDaysOf a)
          today (addMonths today monthsAhead) freq hf 120 (parseISO endISO)
          (parseISO_monthOk _)
        rw [hffwd] at h
        exact h
    · rw [if_neg hauto, if_neg hauto]
      by_cases hterm : toRD today ≤ toRD (parseISO endISO) ∧
          toRD (parseISO endISO) ≤ toRD (addMonths today monthsAhead)
      · rw [if_pos hterm, if_pos hterm]
        simp
      · rw [if_neg hterm, if_neg hterm]
        simp

/-- Auto-renewing agreement whose `end_on` lies inside the export horizon,
for the ICS half of the C7 counterexample. -/
def icsDivergeAgreement : AgreementRow :=
  { id := "f1", vendor := "VF", title := "Backup"
    end_on := some ⟨2025, 6, 1⟩
    auto_renews := some true
    notice_days := some 0
    renewal_frequency_months := some 12 }

/-- Agreement whose renewal cursor needs 40 fast-forward steps (more than
the calendar's cap of 36, fewer than `buildKeyDates`'s 120), for the cap
half of the C7 counterexample. -/
def capDivergeAgreement : AgreementRow :=
  { id := "e1", vendor := "VE", title := "Hosting"
    end_on := some ⟨2018, 5, 1⟩
    auto_renews := some true
    notice_days := some 0
    renewal_frequency_months := some 2 }

/-- C7 counterexample: the call sites do not agree as shipped.
(1) Over the same window `[2025-01-01, +12 months]`, the calendar generator
emits a Term End for an auto-renewing agreement ending 2025-06-01 but the ICS
export emits no such (kind, date) pair.
(2) For a cadence-2 agreement anchored in 2018, `buildKeyDates` (cap 120)
emits a renewal on 2025-01-01 while the calendar generator over the same
window with its default cap 36 exhausts its guard during fast-forward and
emits nothing at all. -/
theorem claim_C7_counterexample :
    ((EventType.termination, (⟨2025, 6, 1⟩ : Date)) ∈
        (generateEventsFromAgreement icsDivergeAgreement (mkDate 2025 1 1)
          (addMonths (mkDate 2025 1 1) 12) 36).map (fun e => (e.type, e.date))
      ∧ ¬ ((EventType.termination, (⟨2025, 6, 1⟩ : Date)) ∈
        (icsEventsFor icsDivergeAgreement (mkDate 2025 1 1)).map
          (fun e => (e.kind, e.dt))))
    ∧ ((EventType.renewal, (⟨2025, 1, 1⟩ : Date)) ∈
        (buildKeyDates capDivergeAgreement (mkDate 2025 1 1) 60).map
          (fun row => (row.event_kind, row.occurs_on))
      ∧ generateEventsFromAgreement capDivergeAgreement (mkDate 2025 1 1)
          (addMonths (mkDate 2025 1 1) 60) 36 = []) := by
  decide

/-- C7 amended: the calendar generator and the PATCH route's `buildKeyDates`
do agree once cap and window are matched — for every agreement and run date,
`buildKeyDates(a)` (window `[today, today + 60 months]`, cap 120) produces
exactly the (kind, occurs-on) sequence of `generateEventsFromAgreement(a,
today, today + 60 months, cap = 120)`; as shipped the call sites differ in
cap (36 / 120 / 24), and the ICS export additionally omits Term End events
for auto-renewing agreements. -/
theorem claim_C7_call_site_agreement (a : AgreementRow) (today : Date) :
    (buildKeyDates a today 60).map (fun row => (row.event_kind, row.occurs_on))
      = (generateEventsFromAgreement a today (addMonths today 60) 120).map
          (fun e => (e.type, e.date)) :=
  buildKeyDates_eq_generate a today 60
